import Mathlib

/-!
Verification of the chunked-transfer engine of the SOTA client
(`src/persistence.rs`, `src/handler/service.rs`, `src/main_loop.rs`).

The development shallowly embeds the Rust source: machine integers are
modelled as `Nat` with explicit reduction modulo `2 ^ 32` or `2 ^ 64`
where the Rust types overflow, the filesystem is an explicit state
value threaded through the operations, and fallible operations return
`Option`.
-/

namespace Sota

/-! ## 32-bit helpers (the SHA-1 crate works on `u32` words) -/

/-- Truncate to a 32-bit word, as Rust `u32` arithmetic does. -/
def w32 (n : Nat) : Nat := n % 4294967296

/-- 32-bit addition with wrap-around (`u32::wrapping_add`). -/
def add32 (a b : Nat) : Nat := (a + b) % 4294967296

/-- Rotate a 32-bit word left by `s` bits (`u32::rotate_left`). -/
def rotl (s n : Nat) : Nat := w32 (n <<< s) ||| (n >>> (32 - s))

/-! ## SHA-1

The client calls into the external `crypto` crate
(`crypto::sha1::Sha1`); the digest is standard SHA-1 (FIPS 180-4),
modelled here over a byte list (each byte a `Nat` below 256). -/

/-- Initial SHA-1 state words. -/
def sha1InitH : Nat × Nat × Nat × Nat × Nat :=
  (0x67452301, 0xEFCDAB89, 0x98BADCFE, 0x10325476, 0xC3D2E1F0)

/-- Round constant for round `i` of SHA-1. -/
def sha1K (i : Nat) : Nat :=
  if i < 20 then 0x5A827999
  else if i < 40 then 0x6ED9EBA1
  else if i < 60 then 0x8F1BBCDC
  else 0xCA62C1D6

/-- Round function for round `i` of SHA-1. -/
def sha1F (i b c d : Nat) : Nat :=
  if i < 20 then (b &&& c) ||| ((b ^^^ 0xFFFFFFFF) &&& d)
  else if i < 40 then b ^^^ c ^^^ d
  else if i < 60 then (b &&& c) ||| (b &&& d) ||| (c &&& d)
  else b ^^^ c ^^^ d

/-- Big-endian packing of bytes into 32-bit words. -/
def packWords : List Nat → List Nat
  | b0 :: b1 :: b2 :: b3 :: rest =>
      (b0 * 16777216 + b1 * 65536 + b2 * 256 + b3) :: packWords rest
  | _ => []

/-- Message-schedule extension: `wrev` is the schedule so far, most
recent word first; `k` words remain to be produced. -/
def extendW (wrev : List Nat) : Nat → List Nat
  | 0 => wrev
  | k + 1 =>
      let x := (wrev.getD 2 0) ^^^ (wrev.getD 7 0) ^^^
               (wrev.getD 13 0) ^^^ (wrev.getD 15 0)
      extendW (rotl 1 x :: wrev) k

/-- The 80 rounds of the SHA-1 compression function. -/
def sha1Rounds : List (Nat × Nat) → Nat × Nat × Nat × Nat × Nat →
    Nat × Nat × Nat × Nat × Nat
  | [], st => st
  | (i, wi) :: rest, (a, b, c, d, e) =>
      let temp :=
        add32 (add32 (add32 (add32 (rotl 5 a) (sha1F i b c d)) e) (sha1K i)) wi
      sha1Rounds rest (temp, a, rotl 30 b, c, d)

/-- Process one 64-byte block, updating the five state words. -/
def sha1Block (h : Nat × Nat × Nat × Nat × Nat) (block : List Nat) :
    Nat × Nat × Nat × Nat × Nat :=
  let ws := (extendW (packWords block).reverse 64).reverse
  let (h0, h1, h2, h3, h4) := h
  let (a, b, c, d, e) := sha1Rounds ((List.range 80).zip ws) h
  (add32 h0 a, add32 h1 b, add32 h2 c, add32 h3 d, add32 h4 e)

/-- Split a byte list into 64-byte blocks (`fuel` bounds the number of
blocks; structural recursion keeps the definition kernel-reducible). -/
def splitBlocksAux : Nat → List Nat → List (List Nat)
  | 0, _ => []
  | fuel + 1, l => if l = [] then [] else l.take 64 :: splitBlocksAux fuel (l.drop 64)

/-- Split a byte list into 64-byte blocks. -/
def splitBlocks (l : List Nat) : List (List Nat) := splitBlocksAux l.length l

/-- SHA-1 padding: append `0x80`, zeros to 56 mod 64, then the bit
length as eight big-endian bytes. -/
def sha1Pad (msg : List Nat) : List Nat :=
  let L := msg.length
  let zeros := (119 - L % 64) % 64
  let bitLen := 8 * L
  msg ++ [0x80] ++ List.replicate zeros 0 ++
    [bitLen / 2 ^ 56 % 256, bitLen / 2 ^ 48 % 256, bitLen / 2 ^ 40 % 256,
     bitLen / 2 ^ 32 % 256, bitLen / 2 ^ 24 % 256, bitLen / 2 ^ 16 % 256,
     bitLen / 2 ^ 8 % 256, bitLen % 256]

/-- Serialize a 32-bit word to four big-endian bytes. -/
def wordBytes (n : Nat) : List Nat :=
  [n / 16777216 % 256, n / 65536 % 256, n / 256 % 256, n % 256]

/-- SHA-1 digest of a byte list, as 20 bytes. -/
def sha1 (msg : List Nat) : List Nat :=
  let (h0, h1, h2, h3, h4) :=
    (splitBlocks (sha1Pad msg)).foldl sha1Block sha1InitH
  wordBytes h0 ++ wordBytes h1 ++ wordBytes h2 ++ wordBytes h3 ++ wordBytes h4

/-- Lower-case hexadecimal digit. -/
def hexDigit : Nat → Char
  | 0 => '0' | 1 => '1' | 2 => '2' | 3 => '3' | 4 => '4'
  | 5 => '5' | 6 => '6' | 7 => '7' | 8 => '8' | 9 => '9'
  | 10 => 'a' | 11 => 'b' | 12 => 'c' | 13 => 'd' | 14 => 'e'
  | _ => 'f'

/-- Lower-case hexadecimal encoding of a byte list (`result_str` of
the `crypto` crate outputs lower-case hex). -/
def hexStr (bytes : List Nat) : String :=
  String.mk (bytes.foldr (fun b acc => hexDigit (b / 16) :: hexDigit (b % 16) :: acc) [])

/-- Lower-case hex SHA-1 digest of a byte list. -/
def sha1Hex (msg : List Nat) : String := hexStr (sha1 msg)

/-! ## Base64 decoding

`Transfer::write_chunk` decodes the payload with
`rustc_serialize::base64::FromBase64` (`msg.from_base64()`).  That
decoder accepts both the standard and the URL-safe alphabet, skips
CR and LF, stops at the first `=` (requiring only `=`, CR, LF after
it), and keeps a `u32` accumulator that is shifted left six bits per
character.  The model below mirrors that loop; bytes of the input
string are represented by the code points of its characters (any
character at or above 128 is a non-alphabet byte and is rejected,
exactly as the multi-byte UTF-8 encodings would be). -/

/-- One traversal of the decoder loop.  Returns `none` on an invalid
byte, otherwise the decoded bytes together with the final accumulator
and modulus. -/
def b64Loop : List Char → Nat → Nat → List Nat → Option (List Nat × Nat × Nat)
  | [], buf, m, acc => some (acc, buf, m)
  | c :: rest, buf, m, acc =>
      let v := c.toNat
      if 10 = v ∨ 13 = v then b64Loop rest buf m acc
      else if 61 = v then
        if rest.all (fun c2 => c2.toNat = 61 ∨ c2.toNat = 13 ∨ c2.toNat = 10)
        then some (acc, buf, m) else none
      else
        match
          (if 65 ≤ v ∧ v ≤ 90 then some (v - 65)
           else if 97 ≤ v ∧ v ≤ 122 then some (v - 71)
           else if 48 ≤ v ∧ v ≤ 57 then some (v + 4)
           else if 43 = v ∨ 45 = v then some 62
           else if 47 = v ∨ 95 = v then some 63
           else none) with
        | none => none
        | some val =>
            let buf2 := w32 ((buf ||| val) <<< 6)
            if m + 1 = 4 then
              b64Loop rest buf2 0
                (acc ++ [buf2 >>> 22 % 256, buf2 >>> 14 % 256, buf2 >>> 6 % 256])
            else b64Loop rest buf2 (m + 1) acc

/-- `rustc_serialize` base64 decoding of a string, as called by
`write_chunk` via `msg.from_base64()`. -/
def from_base64 (s : String) : Option (List Nat) :=
  match b64Loop s.data 0 0 [] with
  | none => none
  | some (acc, buf, m) =>
      if m = 0 then some acc
      else if m = 2 then some (acc ++ [buf >>> 10 % 256])
      else if m = 3 then some (acc ++ [buf >>> 16 % 256, buf >>> 8 % 256])
      else none

/-! ## Decimal printing and parsing

Chunk files are named `index.to_string()` (`u64::to_string`) and
parsed back with `u64::from_str` (`parse_index`). -/

/-- Little-endian decimal digits of a number (`fuel` bounds the
number of digits; structural recursion keeps the definition
kernel-reducible). -/
def digitsRevAux : Nat → Nat → List Char
  | 0, _ => []
  | fuel + 1, n =>
      if n = 0 then [] else hexDigit (n % 10) :: digitsRevAux fuel (n / 10)

/-- Little-endian decimal digits of a positive number. -/
def digitsRev (n : Nat) : List Char := digitsRevAux n n

/-- `u64::to_string`: canonical decimal representation. -/
def natToDecimal (n : Nat) : String :=
  if n = 0 then "0" else String.mk (digitsRev n).reverse

/-- Numeric value of a decimal digit character. -/
def digitVal (c : Char) : Nat := c.toNat - 48

/-- Is `c` an ASCII decimal digit? -/
def isDigitChar (c : Char) : Bool := 48 ≤ c.toNat ∧ c.toNat ≤ 57

/-- `u64::from_str` as used by `parse_index`: an optional leading
`+`, then one or more decimal digits, with the value below `2 ^ 64`
(`u64::from_str` reports overflow through checked arithmetic, which
fails exactly when the value of the digit string exceeds `u64::MAX`). -/
def parse_u64 (s : String) : Option Nat :=
  match s.data with
  | [] => none
  | c :: rest =>
      let ds := if c = '+' then rest else c :: rest
      if ds = [] then none
      else if ds.all isDigitChar then
        let v := ds.foldl (fun a c => 10 * a + digitVal c) 0
        if v < 18446744073709551616 then some v else none
      else none

/-! ## Filesystem model

Paths are component lists (the first component stands for the
`prefix_dir` string, then directory names, then a file name).  The
state holds the regular files with their contents and the set of
existing directories.  Within the model, directory creation
(`fs::create_dir_all`) always succeeds; opening a file for reading
succeeds exactly when the file exists; write failures are injected
through explicit oracles where a claim depends on them. -/

abbrev Path := List String

/-- Model filesystem: regular files with contents, plus directories. -/
structure Fs where
  files : List (Path × List Nat)
  dirs : List Path
deriving DecidableEq

/-- Contents of the regular file at `p`, if present. -/
def Fs.getFile (fs : Fs) (p : Path) : Option (List Nat) :=
  (fs.files.find? (fun e => e.fst = p)).map Prod.snd

/-- Create or overwrite the regular file at `p` with contents `d`. -/
def Fs.setFile (fs : Fs) (p : Path) (d : List Nat) : Fs :=
  { fs with files := (p, d) :: fs.files.filter (fun e => ¬ e.fst = p) }

/-- Ensure directory `d` exists (`fs::create_dir_all`). -/
def Fs.addDir (fs : Fs) (d : Path) : Fs :=
  { fs with dirs := if d ∈ fs.dirs then fs.dirs else d :: fs.dirs }

/-- Is `p` the path of an entry directly inside directory `d`? -/
def isInDir (d : Path) (p : Path) : Bool := p.dropLast = d ∧ ¬ p = []

/-- The entries of directory `d`: name and contents of each regular
file directly inside it (`fs::read_dir`). -/
def Fs.dirEntries (fs : Fs) (d : Path) : List (String × List Nat) :=
  fs.files.filterMap (fun e =>
    if isInDir d e.fst then (e.fst.getLast?).map (fun n => (n, e.snd)) else none)

/-! ## Transfer -/

/-- `message::PackageId`: a package name and version. -/
structure PackageId where
  name : String
  version : String
deriving DecidableEq

/-- Modelled from the spec: the `Display` implementation of
`PackageId` lives in the absent `message` module; the spec states
that a `PackageId` is serialized as the name and the version joined
by a dash. -/
def PackageId.show (p : PackageId) : String := p.name ++ "-" ++ p.version

/-- `persistence::Transfer`: the state of one in-progress package
download.  `root_dir` embeds the source field `prefix_dir`. -/
structure Transfer where
  package : PackageId
  checksum : String
  transferred_chunks : List Nat
  root_dir : String
  last_chunk_received : Int
deriving DecidableEq

/-- `Transfer::new`.  The source reads the clock
(`time::get_time().sec`); the current time is passed in explicitly. -/
def Transfer.new (root : String) (package : PackageId) (checksum : String)
    (now : Int) : Transfer :=
  { package := package
    checksum := checksum
    transferred_chunks := []
    root_dir := root
    last_chunk_received := now }

/-- The chunk cache directory of a transfer
(`Transfer::get_chunk_dir`). -/
def Transfer.chunkDir (t : Transfer) : Path :=
  [t.root_dir, "downloads", t.package.show]

/-- The path of the chunk file for `index`
(`Transfer::get_chunk_path`). -/
def Transfer.chunkPath (t : Transfer) (index : Nat) : Path :=
  t.chunkDir ++ [natToDecimal index]

/-- The path of the assembled package file
(`Transfer::get_package_path`). -/
def Transfer.packagePath (t : Transfer) : Path :=
  [t.root_dir, "packages", t.package.show ++ ".spkg"]

/-- Rust `Vec::sort` on the chunk indices.  Insertion sort produces
the ascending reordering, which on a list of naturals is the unique
sorted permutation, hence equal to the result of the stable merge
sort used by `Vec::sort`. -/
def sortNat (l : List Nat) : List Nat := l.insertionSort (· ≤ ·)

/-- Rust `Vec::dedup`: collapse runs of consecutive equal elements. -/
def dedupConsec : List Nat → List Nat
  | [] => []
  | [a] => [a]
  | a :: b :: rest =>
      if a = b then dedupConsec (b :: rest) else a :: dedupConsec (b :: rest)

/-- Outcome of the file write inside `write_new_file`, injected as an
oracle: the open may fail, the write may stop after `k` bytes (also
covering a failing flush at `k` equal to the length), or everything
may succeed. -/
inductive WriteRes where
  | noOpen : WriteRes
  | shortWrite : Nat → WriteRes
  | okWrite : WriteRes
deriving DecidableEq

/-- I/O oracle for one `write_chunk` call: whether `create_dir_all`
succeeds, and how the file write goes. -/
structure IoSpec where
  dirOk : Bool
  res : WriteRes
deriving DecidableEq

/-- `write_new_file`: create or truncate the file at `path`, write
`data`, flush; `true` exactly on full success. -/
def write_new_file (fs : Fs) (path : Path) (data : List Nat) (res : WriteRes) :
    Fs × Bool :=
  match res with
  | .noOpen => (fs, false)
  | .shortWrite k => (fs.setFile path (data.take k), false)
  | .okWrite => (fs.setFile path data, true)

/-- `Transfer::write_chunk`: decode the base64 payload, write it to
the chunk file, record the index (push, sort, dedup), and always
update `last_chunk_received` to the current time. -/
def Transfer.write_chunk (t : Transfer) (fs : Fs) (msg : String) (index : Nat)
    (now : Int) (io : IoSpec) : Transfer × Fs × Bool :=
  let (t1, fs1, ok) :=
    match from_base64 msg with
    | none => (t, fs, false)
    | some bytes =>
        if io.dirOk then
          let fs1 := fs.addDir t.chunkDir
          match write_new_file fs1 (t.chunkPath index) bytes io.res with
          | (fs2, true) =>
              ({ t with transferred_chunks :=
                   dedupConsec (sortNat (t.transferred_chunks ++ [index])) },
               fs2, true)
          | (fs2, false) => (t, fs2, false)
        else (t, fs, false)
  ({ t1 with last_chunk_received := now }, fs1, ok)

/-- The copy loop of `assemble_chunks`: append the chunk file of each
index to the package file, failing if a chunk file is absent. -/
def Transfer.copyChunks (t : Transfer) : List Nat → Fs → Option Fs
  | [], fs => some fs
  | i :: rest, fs =>
      match fs.getFile (t.chunkPath i), fs.getFile t.packagePath with
      | some chunk, some cur =>
          t.copyChunks rest (fs.setFile t.packagePath (cur ++ chunk))
      | _, _ => none

/-- The filesystem as `assemble_chunks` leaves it before the copy
loop: `get_package_path` has created the package directory, the
package file has been opened with create and truncate, and
`get_chunk_dir` has ensured the chunk directory exists. -/
def Transfer.assembleFs (t : Transfer) (fs : Fs) : Fs :=
  ((fs.addDir [t.root_dir, "packages"]).setFile t.packagePath []).addDir
    t.chunkDir

/-- `Transfer::assemble_chunks`: create and truncate the package
file, enumerate the chunk directory, parse every name as a `u64`
(failing otherwise), sort the indices, and append the chunk files in
that order. -/
def Transfer.assemble_chunks (t : Transfer) (fs : Fs) : Option Fs :=
  match ((t.assembleFs fs).dirEntries t.chunkDir).mapM
      (fun e => parse_u64 e.fst) with
  | none => none
  | some indices => t.copyChunks (sortNat indices) (t.assembleFs fs)

/-- The private `Transfer::checksum` method: read the assembled
package file and compare its lower-case hex SHA-1 digest with the
configured checksum. -/
def Transfer.verify_checksum (t : Transfer) (fs : Fs) : Bool :=
  match fs.getFile t.packagePath with
  | none => false
  | some data => sha1Hex data = t.checksum

/-- `Transfer::assemble_package`: assemble the chunks, then verify
the checksum; `false` if either step fails. -/
def Transfer.assemble_package (t : Transfer) (fs : Fs) : Bool :=
  match t.assemble_chunks fs with
  | none => false
  | some fs1 => t.verify_checksum fs1

/-- Is `d` an ancestor of `p` (that is, `p` lies somewhere below the
directory `d`, directly or in a subdirectory)? -/
def underDir (d p : Path) : Bool := (p.take d.length = d) && !(p = d)

/-- The `Drop` implementation of `Transfer`: `get_chunk_dir`
(re)creates the directory, then every regular file directly inside it
is removed, then `fs::remove_dir` removes the directory itself —
which succeeds only when nothing is left below it. -/
def Transfer.dropCleanup (t : Transfer) (fs : Fs) : Fs :=
  let fs0 := fs.addDir t.chunkDir
  let fs1 : Fs :=
    { files := fs0.files.filter (fun e => !isInDir t.chunkDir e.fst)
      dirs := fs0.dirs }
  if (fs1.files.all (fun e => !underDir t.chunkDir e.fst)) &&
     (fs1.dirs.all (fun d => !underDir t.chunkDir d)) then
    { fs1 with dirs := fs1.dirs.filter (fun d => !(d = t.chunkDir)) }
  else fs1

/-! ## The service dispatcher (`ServiceHandler::handle_message`)

JSON values are modelled as a tree.  Numbers carry an integer: the
`rustc_serialize` JSON parser stores non-negative integers as `U64`
and negative ones as `I64`, and `as_u64` succeeds on the former.
Objects are association lists with distinct keys (the parser builds a
`BTreeMap`). -/

inductive Json where
  | null : Json
  | bool : Bool → Json
  | num : Int → Json
  | str : String → Json
  | arr : List Json → Json
  | obj : List (String × Json) → Json

/-- `Json::as_object`. -/
def Json.asObject : Json → Option (List (String × Json))
  | .obj fields => some fields
  | _ => none

/-- `Json::as_u64`: succeeds on a non-negative integer. -/
def Json.asU64 : Json → Option Nat
  | .num n => if 0 ≤ n then some n.toNat else none
  | _ => none

/-- `Json::as_string`. -/
def Json.asString : Json → Option String
  | .str s => some s
  | _ => none

/-- `BTreeMap::get` on an object's fields. -/
def jsonGet (fields : List (String × Json)) (key : String) : Option Json :=
  ((fields.find? (fun e => e.fst = key)).map Prod.snd)

/-- A JSON-RPC reply: either an OK response carrying the request id,
or an error response with a code and an optional id. -/
inductive Reply where
  | okResp : Nat → Reply
  | errResp : Int → Option Nat → Reply
deriving DecidableEq

/-- Modelled from the spec: the constructors of
`jsonrpc::ErrResponse` live in the absent `jsonrpc` module; the spec
fixes the standard JSON-RPC codes -32700 (parse error, no id),
-32600 (invalid request), -32601 (method not found) and -32602
(invalid params), plus an implementation-defined code for
handler-reported failure (the value -32100 below is a placeholder for
that unspecified code). -/
def parseErrorReply : Reply := .errResp (-32700) none

/-- Modelled from the spec: `ErrResponse::invalid_request`. -/
def invalidRequestReply (id : Nat) : Reply := .errResp (-32600) (some id)

/-- Modelled from the spec: `ErrResponse::method_not_found`. -/
def methodNotFoundReply (id : Nat) : Reply := .errResp (-32601) (some id)

/-- Modelled from the spec: `ErrResponse::invalid_params`. -/
def invalidParamsReply (id : Nat) : Reply := .errResp (-32602) (some id)

/-- Modelled from the spec: `ErrResponse::unspecified`. -/
def unspecifiedReply (id : Nat) : Reply := .errResp (-32100) (some id)

/-- The service paths registered in `main_loop::start` and matched in
order by the `handle_params!` expansion. -/
def registeredServices : List String :=
  ["/sota/notify", "/sota/start", "/sota/chunk", "/sota/finish",
   "/sota/getpackages", "/sota/abort"]

/-- The `params.service_name` lookup of `handle_message`. -/
def serviceNameOf (obj : List (String × Json)) : Option String :=
  ((jsonGet obj "params").bind Json.asObject).bind
    (fun p => (jsonGet p "service_name").bind Json.asString)

/-- `ServiceHandler::handle_message`, given the parsed request body
(`none` when `Json::from_str` fails).  `decodeRes` abstracts
`handle_message_params` for each registered service path: `none`
means the typed payload of that service failed to decode, `some b`
that the handler ran and returned `b`. -/
def handle_message (decodeRes : String → Option Bool) (body : Option Json) :
    Reply :=
  match body with
  | none => parseErrorReply
  | some data =>
    match data.asObject with
    | none => parseErrorReply
    | some obj =>
      match (jsonGet obj "id").bind Json.asU64 with
      | none => parseErrorReply
      | some rpcId =>
        match (jsonGet obj "method").bind Json.asString with
        | none => invalidRequestReply rpcId
        | some method =>
          if method = "services_available" then .okResp rpcId
          else if ¬ method = "message" then methodNotFoundReply rpcId
          else
            match serviceNameOf obj with
            | none => invalidRequestReply rpcId
            | some service =>
              if service ∈ registeredServices then
                match decodeRes service with
                | none => invalidParamsReply rpcId
                | some true => .okResp rpcId
                | some false => unspecifiedReply rpcId
              else invalidRequestReply rpcId

/-! ## The timeout sweeper and its start-up -/

/-- One pass of the sweeper loop body in
`ServiceHandler::start_timer`: collect the ids of the transfers whose
`last_chunk_received` lies more than `timeout` seconds in the past,
then remove them from the table. -/
def sweep (timeout timeNow : Int) (table : List (PackageId × Transfer)) :
    List (PackageId × Transfer) :=
  let timedOut :=
    (table.filter (fun e => timeout < timeNow - e.snd.last_chunk_received)).map
      Prod.fst
  table.filter (fun e => ¬ e.fst ∈ timedOut)

/-- `main_loop::start` spawns the sweeper thread exactly when a
timeout is configured (`conf.client.timeout` matches `Some`). -/
def timerSpawned (timeout : Option Int) : Bool :=
  match timeout with
  | some _ => true
  | none => false

/-! ## Auxiliary definitions for the statements -/

/-- Does a reply carry the JSON-RPC invalid-request code -32600? -/
def isInvalidRequest : Reply → Bool
  | .errResp c _ => c = -32600
  | _ => false

/-- The arguments of one `write_chunk` call, with its clock reading
and I/O outcome. -/
structure ChunkCall where
  msg : String
  index : Nat
  now : Int
  io : IoSpec

/-- Run a sequence of `write_chunk` calls on a transfer. -/
def runChunkCalls : Transfer × Fs → List ChunkCall → Transfer × Fs
  | st, [] => st
  | (t, fs), c :: rest =>
      let r := t.write_chunk fs c.msg c.index c.now c.io
      runChunkCalls (r.fst, r.snd.fst) rest

/-- A transfer fixture over the storage root `p` for the package
`n-v`, with a configurable checksum. -/
def testTransfer (cs : String) : Transfer := Transfer.new "p" ⟨"n", "v"⟩ cs 0

/-- A filesystem fixture whose chunk directory for `testTransfer`
holds the single chunk file `0` with the bytes of the string
`test` followed by a newline. -/
def testFs : Fs :=
  { files := [(["p", "downloads", "n-v", "0"], [116, 101, 115, 116, 10])]
    dirs := [] }

/-- A filesystem fixture whose chunk directory for `testTransfer`
holds a single file whose name does not parse as a `u64`. -/
def badNameFs : Fs :=
  { files := [(["p", "downloads", "n-v", "junk"], [1])]
    dirs := [] }

/-! # Theorems -/

/-- Claim C6: every call to `write_chunk` — including base64 decode
failure, directory-creation failure and disk-write failure — sets the
transfer's `last_chunk_received` field to the current time. -/
theorem claim_C6_last_chunk_always_updated (t : Transfer) (fs : Fs)
    (msg : String) (index : Nat) (now : Int) (io : IoSpec) :
    ((t.write_chunk fs msg index now io).fst).last_chunk_received = now := by
  rcases io with ⟨dirOk, res⟩
  cases h : from_base64 msg <;> cases dirOk <;> cases res <;>
    simp [Transfer.write_chunk, write_new_file, h]

/-- Claim C10: a request with an integer id and method
`services_available` is acknowledged with an OK reply without the
`params` field being inspected at all: the object may lack `params`
entirely or hold a non-object there. -/
theorem claim_C10_services_available_ignores_params
    (d : String → Option Bool) (fields : List (String × Json)) (id : Nat)
    (hid : jsonGet fields "id" = some (.num id))
    (hm : jsonGet fields "method" = some (.str "services_available")) :
    handle_message d (some (.obj fields)) = .okResp id := by
  simp [handle_message, Json.asObject, hid, hm, Json.asU64, Json.asString]

/-- Witness for claim C10, at a request with no `params` field and at
one whose `params` is a string. -/
theorem claim_C10_witness :
    handle_message (fun _ => none)
      (some (.obj [("id", .num 7), ("method", .str "services_available")])) =
      .okResp 7
    ∧ handle_message (fun _ => none)
      (some (.obj [("id", .num 7), ("method", .str "services_available"),
                   ("params", .str "junk")])) = .okResp 7 :=
  ⟨claim_C10_services_available_ignores_params (fun _ => none)
     [("id", .num 7), ("method", .str "services_available")] 7 rfl rfl,
   claim_C10_services_available_ignores_params (fun _ => none)
     [("id", .num 7), ("method", .str "services_available"),
      ("params", .str "junk")] 7 rfl rfl⟩

/-- Claim C4: routing of a well-formed request with integer id:
`services_available` is acknowledged; any other method besides
`message` gets error -32601; a `message` to an unregistered service
path gets -32600; a `message` to a registered path whose typed
payload fails to decode gets -32602. -/
theorem claim_C4_dispatcher_routing
    (d : String → Option Bool) (fields : List (String × Json)) (id : Nat)
    (hid : jsonGet fields "id" = some (.num id)) :
    (jsonGet fields "method" = some (.str "services_available") →
      handle_message d (some (.obj fields)) = .okResp id)
    ∧ (∀ m, jsonGet fields "method" = some (.str m) →
        ¬ m = "services_available" → ¬ m = "message" →
        handle_message d (some (.obj fields)) = methodNotFoundReply id)
    ∧ (∀ s, jsonGet fields "method" = some (.str "message") →
        serviceNameOf fields = some s → ¬ s ∈ registeredServices →
        handle_message d (some (.obj fields)) = invalidRequestReply id)
    ∧ (∀ s, jsonGet fields "method" = some (.str "message") →
        serviceNameOf fields = some s → s ∈ registeredServices → d s = none →
        handle_message d (some (.obj fields)) = invalidParamsReply id) := by
  refine ⟨?_, ?_, ?_, ?_⟩
  · intro hm
    simp [handle_message, Json.asObject, hid, hm, Json.asU64, Json.asString]
  · intro m hm h1 h2
    simp [handle_message, Json.asObject, hid, hm, Json.asU64, Json.asString,
          h1, h2]
  · intro s hm hs h1
    simp [handle_message, Json.asObject, hid, hm, Json.asU64, Json.asString,
          hs, h1]
  · intro s hm hs h1 h2
    simp [handle_message, Json.asObject, hid, hm, Json.asU64, Json.asString,
          hs, h1, h2]

/-- Witness for claim C4: the four routing outcomes at concrete
requests with id 3. -/
theorem claim_C4_witness :
    handle_message (fun _ => none)
      (some (.obj [("id", .num 3), ("method", .str "services_available")])) =
      .okResp 3
    ∧ handle_message (fun _ => none)
      (some (.obj [("id", .num 3), ("method", .str "update")])) =
      methodNotFoundReply 3
    ∧ handle_message (fun _ => none)
      (some (.obj [("id", .num 3), ("method", .str "message"),
        ("params", .obj [("service_name", .str "/sota/unknown")])])) =
      invalidRequestReply 3
    ∧ handle_message (fun _ => none)
      (some (.obj [("id", .num 3), ("method", .str "message"),
        ("params", .obj [("service_name", .str "/sota/chunk")])])) =
      invalidParamsReply 3 :=
  ⟨(claim_C4_dispatcher_routing (fun _ => none)
      [("id", .num 3), ("method", .str "services_available")] 3 rfl).1 rfl,
   (claim_C4_dispatcher_routing (fun _ => none)
      [("id", .num 3), ("method", .str "update")] 3 rfl).2.1 "update" rfl
     (by decide) (by decide),
   (claim_C4_dispatcher_routing (fun _ => none)
      [("id", .num 3), ("method", .str "message"),
       ("params", .obj [("service_name", .str "/sota/unknown")])] 3
      rfl).2.2.1 "/sota/unknown" rfl (by decide) (by decide),
   (claim_C4_dispatcher_routing (fun _ => none)
      [("id", .num 3), ("method", .str "message"),
       ("params", .obj [("service_name", .str "/sota/chunk")])] 3
      rfl).2.2.2 "/sota/chunk" rfl (by decide) (by decide) rfl⟩

/-- Counterexample to claim C5: a request object that lacks the `id`
field (here a `message` request with a valid service path) is
answered with the parse-error reply (-32700, no id), not with an
invalid-request reply. -/
theorem claim_C5_counterexample :
    handle_message (fun _ => some true)
      (some (.obj [("method", .str "message"),
        ("params", .obj [("service_name", .str "/sota/chunk")])])) =
      parseErrorReply
    ∧ isInvalidRequest
        (handle_message (fun _ => some true)
          (some (.obj [("method", .str "message"),
            ("params", .obj [("service_name", .str "/sota/chunk")])]))) =
        false := by
  exact ⟨by decide, by decide⟩

/-- Claim C5 as amended: for a request body that parses as a JSON
object, a missing (or non-integer) `id` yields the parse-error reply,
while — once an integer id is present — a missing string `method`, or
for method `message` a missing `params` / `params.service_name`,
yields an invalid-request reply. -/
theorem claim_C5_envelope_errors
    (d : String → Option Bool) (fields : List (String × Json)) :
    ((jsonGet fields "id").bind Json.asU64 = none →
      handle_message d (some (.obj fields)) = parseErrorReply)
    ∧ (∀ id : Nat, jsonGet fields "id" = some (.num id) →
        (jsonGet fields "method").bind Json.asString = none →
        handle_message d (some (.obj fields)) = invalidRequestReply id)
    ∧ (∀ id : Nat, jsonGet fields "id" = some (.num id) →
        jsonGet fields "method" = some (.str "message") →
        serviceNameOf fields = none →
        handle_message d (some (.obj fields)) = invalidRequestReply id) := by
  refine ⟨?_, ?_, ?_⟩
  · intro h
    simp [handle_message, Json.asObject, h]
  · intro id hid h
    simp [handle_message, Json.asObject, hid, Json.asU64, h]
  · intro id hid hm h
    simp [handle_message, Json.asObject, hid, hm, Json.asU64, Json.asString, h]

/-- Witness for the amended claim C5: the three envelope failures at
concrete requests. -/
theorem claim_C5_witness :
    handle_message (fun _ => none)
      (some (.obj [("method", .str "message")])) = parseErrorReply
    ∧ handle_message (fun _ => none)
      (some (.obj [("id", .num 4), ("method", .num 9)])) =
      invalidRequestReply 4
    ∧ handle_message (fun _ => none)
      (some (.obj [("id", .num 4), ("method", .str "message")])) =
      invalidRequestReply 4 :=
  ⟨(claim_C5_envelope_errors (fun _ => none)
      [("method", .str "message")]).1 (by decide),
   (claim_C5_envelope_errors (fun _ => none)
      [("id", .num 4), ("method", .num 9)]).2.1 4 rfl (by decide),
   (claim_C5_envelope_errors (fun _ => none)
      [("id", .num 4), ("method", .str "message")]).2.2 4 rfl rfl
     (by decide)⟩

/-- Claim C8: one sweeper pass keeps exactly the transfers whose age
`now - last_chunk_received` is at most the timeout (strictly older
ones are removed, one exactly at the timeout is kept), and the
sweeper thread is only spawned when a timeout is configured. -/
theorem claim_C8_timeout_sweep
    (timeout timeNow : Int) (table : List (PackageId × Transfer))
    (hkeys : (table.map Prod.fst).Nodup) :
    sweep timeout timeNow table =
      table.filter (fun e => timeNow - e.snd.last_chunk_received ≤ timeout)
    ∧ timerSpawned none = false := by
  refine ⟨?_, rfl⟩
  unfold sweep
  apply List.filter_congr
  intro e he
  simp only [decide_eq_decide, List.mem_map, List.mem_filter]
  constructor
  · intro h
    by_contra hlt
    push_neg at hlt
    exact h ⟨e, ⟨he, by simpa using hlt⟩, rfl⟩
  · rintro hle ⟨e2, ⟨he2, hto⟩, hfst⟩
    have he2e : e2 = e := List.inj_on_of_nodup_map hkeys he2 he hfst
    subst he2e
    simp at hto
    omega

/-- Witness for claim C8: a two-entry table at timeout 5 and time 20;
the transfer last updated at time 14 (age 6) is evicted and the one
last updated at time 15 (age exactly 5) is kept. -/
theorem claim_C8_witness :
    sweep 5 20 [(⟨"a", "1"⟩, Transfer.new "p" ⟨"a", "1"⟩ "" 14),
                (⟨"b", "1"⟩, Transfer.new "p" ⟨"b", "1"⟩ "" 15)] =
      [(⟨"a", "1"⟩, Transfer.new "p" ⟨"a", "1"⟩ "" 14),
       (⟨"b", "1"⟩, Transfer.new "p" ⟨"b", "1"⟩ "" 15)].filter
        (fun e => 20 - e.snd.last_chunk_received ≤ 5)
    ∧ timerSpawned none = false :=
  claim_C8_timeout_sweep 5 20 _ (by decide)

/-- Claim C3: `write_chunk` returns true exactly when the payload
decoded and the write fully succeeded; a successful call leaves the
decoded bytes in the chunk file for that index; and on a base64
decode failure it returns false without touching the filesystem. -/
theorem claim_C3_write_chunk_result (t : Transfer) (fs : Fs) (msg : String)
    (index : Nat) (now : Int) (io : IoSpec) :
    ((t.write_chunk fs msg index now io).snd.snd = true ↔
      ((from_base64 msg).isSome ∧ io.dirOk = true ∧ io.res = .okWrite))
    ∧ (∀ b, from_base64 msg = some b →
        (t.write_chunk fs msg index now io).snd.snd = true →
        ((t.write_chunk fs msg index now io).snd.fst).getFile
          (t.chunkPath index) = some b)
    ∧ (from_base64 msg = none →
        (t.write_chunk fs msg index now io).snd.snd = false ∧
        (t.write_chunk fs msg index now io).snd.fst = fs) := by
  rcases io with ⟨dirOk, res⟩
  refine ⟨?_, ?_, ?_⟩
  · cases h : from_base64 msg <;> cases dirOk <;> cases res <;>
      simp [Transfer.write_chunk, write_new_file, h]
  · intro b hb htrue
    cases dirOk <;> cases res <;>
      simp_all [Transfer.write_chunk, write_new_file, Fs.getFile, Fs.setFile]
  · intro h
    cases dirOk <;> cases res <;>
      simp [Transfer.write_chunk, write_new_file, h]

/-- Witness for claim C3: a successful write of the base64 payload of
`test` plus newline lands the decoded bytes in chunk file `1`, and a
malformed payload is rejected with the filesystem untouched. -/
theorem claim_C3_witness :
    ((testTransfer "x").write_chunk testFs "dGVzdAo=" 1 9
        ⟨true, .okWrite⟩).snd.fst.getFile ((testTransfer "x").chunkPath 1) =
      some [116, 101, 115, 116, 10]
    ∧ ((testTransfer "x").write_chunk testFs "!" 1 9
        ⟨true, .okWrite⟩).snd.snd = false
    ∧ ((testTransfer "x").write_chunk testFs "!" 1 9
        ⟨true, .okWrite⟩).snd.fst = testFs :=
  ⟨(claim_C3_write_chunk_result (testTransfer "x") testFs "dGVzdAo=" 1 9
      ⟨true, .okWrite⟩).2.1 [116, 101, 115, 116, 10] (by decide) (by decide),
   ((claim_C3_write_chunk_result (testTransfer "x") testFs "!" 1 9
      ⟨true, .okWrite⟩).2.2 (by decide)).1,
   ((claim_C3_write_chunk_result (testTransfer "x") testFs "!" 1 9
      ⟨true, .okWrite⟩).2.2 (by decide)).2⟩

/-- The deduplicated tail of a sorted-from-`a` list is strictly
sorted and bounded below by `a`. -/
theorem dedup_chain (a : Nat) (l : List Nat) (h : List.Chain (· ≤ ·) a l) :
    (dedupConsec (a :: l)).Sorted (· < ·) ∧
    ∀ x ∈ dedupConsec (a :: l), a ≤ x := by
  induction l generalizing a with
  | nil => simp [dedupConsec]
  | cons b rest ih =>
    rcases h with _ | ⟨hab, hchain⟩
    have hb := ih b hchain
    by_cases hab2 : a = b
    · subst hab2
      simpa [dedupConsec] using hb
    · constructor
      · simp only [dedupConsec, if_neg hab2]
        refine List.Pairwise.cons ?_ hb.1
        intro x hx
        exact lt_of_le_of_ne (le_trans hab (hb.2 x hx))
          (by rintro rfl; exact hab2 (le_antisymm hab (hb.2 _ hx)))
      · intro x hx
        simp only [dedupConsec, if_neg hab2, List.mem_cons] at hx
        rcases hx with rfl | hx
        · exact le_refl x
        · exact le_trans hab (hb.2 x hx)

/-- Deduplicating a weakly sorted list yields a strictly sorted
list. -/
theorem dedup_sorted (l : List Nat) (h : l.Sorted (· ≤ ·)) :
    (dedupConsec l).Sorted (· < ·) := by
  cases l with
  | nil => simp [dedupConsec]
  | cons a rest =>
    exact (dedup_chain a rest ((List.chain_iff_pairwise).2 h)).1

/-- A `write_chunk` call either leaves `transferred_chunks` unchanged
or replaces it by the sorted deduplication of the old list plus the
new index. -/
theorem write_chunk_chunks_cases (t : Transfer) (fs : Fs) (msg : String)
    (index : Nat) (now : Int) (io : IoSpec) :
    ((t.write_chunk fs msg index now io).fst).transferred_chunks =
      t.transferred_chunks ∨
    ((t.write_chunk fs msg index now io).fst).transferred_chunks =
      dedupConsec (sortNat (t.transferred_chunks ++ [index])) := by
  rcases io with ⟨dirOk, res⟩
  cases h : from_base64 msg <;> cases dirOk <;> cases res <;>
    simp [Transfer.write_chunk, write_new_file, h]

/-- Strict sortedness of `transferred_chunks` is preserved by any
sequence of `write_chunk` calls. -/
theorem runChunkCalls_sorted (calls : List ChunkCall) (t : Transfer) (fs : Fs)
    (h : t.transferred_chunks.Sorted (· < ·)) :
    ((runChunkCalls (t, fs) calls).fst).transferred_chunks.Sorted (· < ·) := by
  induction calls generalizing t fs with
  | nil => exact h
  | cons c rest ih =>
    apply ih
    rcases write_chunk_chunks_cases t fs c.msg c.index c.now c.io with hc | hc <;>
      rw [hc]
    · exact h
    · exact dedup_sorted _ (List.sorted_insertionSort (· ≤ ·) _)

/-- Claim C7: `transferred_chunks` starts empty at `Transfer::new`
and after any sequence of `write_chunk` calls — repeated or
out-of-order indices, failing or succeeding — it is in ascending
order and free of duplicates. -/
theorem claim_C7_transferred_chunks_sorted_set (root : String)
    (pkg : PackageId) (cs : String) (now0 : Int) (fs : Fs)
    (calls : List ChunkCall) :
    (Transfer.new root pkg cs now0).transferred_chunks = []
    ∧ ((runChunkCalls (Transfer.new root pkg cs now0, fs)
        calls).fst).transferred_chunks.Sorted (· ≤ ·)
    ∧ ((runChunkCalls (Transfer.new root pkg cs now0, fs)
        calls).fst).transferred_chunks.Nodup := by
  have h := runChunkCalls_sorted calls (Transfer.new root pkg cs now0) fs
    (by simp [Transfer.new])
  exact ⟨rfl, h.imp le_of_lt, h.imp ne_of_lt⟩


/-- `find?` over a filtered list fails when the filter excludes every
match. -/
theorem find?_filter_none {α : Type} (l : List α) (pred q : α → Bool)
    (h : ∀ e, pred e = true → q e = false) : (l.filter q).find? pred = none := by
  induction l with
  | nil => rfl
  | cons a rest ih =>
    cases hq : q a with
    | false => simp [List.filter_cons, hq, ih]
    | true =>
      cases hp : pred a with
      | false => simp [List.filter_cons, hq, List.find?_cons_of_neg, hp, ih]
      | true => exact absurd (h a hp) (by simp [hq])

/-- `find?` is unchanged by a filter that keeps every match. -/
theorem find?_filter_frame {α : Type} (l : List α) (pred q : α → Bool)
    (h : ∀ e, pred e = true → q e = true) :
    (l.filter q).find? pred = l.find? pred := by
  induction l with
  | nil => rfl
  | cons a rest ih =>
    cases hq : q a with
    | true =>
      cases hp : pred a with
      | true => simp [List.filter_cons, hq, List.find?_cons_of_pos, hp]
      | false => simp [List.filter_cons, hq, List.find?_cons_of_neg, hp, ih]
    | false =>
      have hp : pred a = false := by
        cases hpa : pred a
        · rfl
        · rw [h a hpa] at hq; exact absurd hq (by simp)
      simp [List.filter_cons, hq, List.find?_cons_of_neg, hp, ih]

/-- Claim C9: destroying a transfer whose chunk directory holds only
regular files removes every file inside that directory and then the
directory itself, while every file outside the chunk directory — in
particular the assembled package file — and every other directory is
left unchanged. -/
theorem claim_C9_drop_cleanup (t : Transfer) (fs : Fs)
    (hflat : ∀ e ∈ fs.files, underDir t.chunkDir e.fst = true →
      isInDir t.chunkDir e.fst = true)
    (hdirs : ∀ d ∈ fs.dirs, underDir t.chunkDir d = false) :
    (∀ n, (t.dropCleanup fs).getFile (t.chunkDir ++ [n]) = none)
    ∧ ¬ t.chunkDir ∈ (t.dropCleanup fs).dirs
    ∧ (∀ p, isInDir t.chunkDir p = false →
        (t.dropCleanup fs).getFile p = fs.getFile p)
    ∧ (t.dropCleanup fs).getFile t.packagePath = fs.getFile t.packagePath
    ∧ (∀ d, ¬ d = t.chunkDir →
        (d ∈ (t.dropCleanup fs).dirs ↔ d ∈ fs.dirs)) := by
  have hcond :
      (((fs.addDir t.chunkDir).files.filter
          (fun e => !isInDir t.chunkDir e.fst)).all
        (fun e => !underDir t.chunkDir e.fst) &&
      ((fs.addDir t.chunkDir).dirs).all
        (fun d => !underDir t.chunkDir d)) = true := by
    rw [Bool.and_eq_true]
    constructor
    · rw [List.all_eq_true]
      intro e he
      rw [List.mem_filter] at he
      rcases he with ⟨he, hni⟩
      cases hub : underDir t.chunkDir e.fst with
      | false => simp
      | true => simp [hflat e he hub] at hni
    · rw [List.all_eq_true]
      intro d hd
      simp only [Fs.addDir] at hd
      by_cases hmem : t.chunkDir ∈ fs.dirs
      · simp only [if_pos hmem] at hd
        simp [hdirs d hd]
      · simp only [if_neg hmem, List.mem_cons] at hd
        rcases hd with rfl | hd
        · simp [underDir]
        · simp [hdirs d hd]
  have hdrop : t.dropCleanup fs =
      { files := (fs.addDir t.chunkDir).files.filter
          (fun e => !isInDir t.chunkDir e.fst)
        dirs := ((fs.addDir t.chunkDir).dirs).filter
          (fun d => !(d = t.chunkDir)) } := by
    unfold Transfer.dropCleanup
    rw [if_pos]
    exact hcond
  refine ⟨?_, ?_, ?_, ?_, ?_⟩
  · intro n
    rw [hdrop]
    unfold Fs.getFile
    rw [find?_filter_none]
    · rfl
    · intro e he
      simp only [decide_eq_true_eq] at he
      simp [isInDir, he]
  · rw [hdrop]
    simp [List.mem_filter]
  · intro p hp
    rw [hdrop]
    unfold Fs.getFile
    rw [find?_filter_frame]
    · rfl
    · intro e he
      simp only [decide_eq_true_eq] at he
      simp [he, hp]
  · rw [hdrop]
    unfold Fs.getFile
    rw [find?_filter_frame]
    · rfl
    · intro e he
      simp only [decide_eq_true_eq] at he
      simp [he, isInDir, Transfer.packagePath, Transfer.chunkDir]
  · intro d hd
    rw [hdrop]
    simp only [List.mem_filter, Fs.addDir]
    by_cases hmem : t.chunkDir ∈ fs.dirs
    · simp [if_pos hmem, hd]
    · simp [if_neg hmem, hd]

/-- Witness for claim C9 at the test fixture: the chunk file `0` is
gone, the chunk directory is gone, and the (absent) package file is
unaffected. -/
theorem claim_C9_witness :
    ((testTransfer "x").dropCleanup testFs).getFile
      ((testTransfer "x").chunkDir ++ ["0"]) = none
    ∧ ¬ (testTransfer "x").chunkDir ∈
        ((testTransfer "x").dropCleanup testFs).dirs
    ∧ ((testTransfer "x").dropCleanup testFs).getFile
        (testTransfer "x").packagePath =
      testFs.getFile (testTransfer "x").packagePath :=
  ⟨(claim_C9_drop_cleanup (testTransfer "x") testFs (by decide)
      (by decide)).1 "0",
   (claim_C9_drop_cleanup (testTransfer "x") testFs (by decide)
      (by decide)).2.1,
   (claim_C9_drop_cleanup (testTransfer "x") testFs (by decide)
      (by decide)).2.2.2.1⟩



theorem digitVal_hexDigit (d : Nat) (h : d < 10) : digitVal (hexDigit d) = d := by
  interval_cases d <;> rfl

theorem isDigitChar_hexDigit (d : Nat) (h : d < 10) :
    isDigitChar (hexDigit d) = true := by
  interval_cases d <;> rfl

theorem digitsRevAux_all (fuel : Nat) : ∀ n,
    (digitsRevAux fuel n).all isDigitChar = true := by
  induction fuel with
  | zero => intro n; rfl
  | succ f ih =>
    intro n
    by_cases h0 : n = 0
    · simp [digitsRevAux, h0]
    · simp only [digitsRevAux, if_neg h0, List.all_cons, ih, Bool.and_true]
      exact isDigitChar_hexDigit _ (Nat.mod_lt _ (by decide))

theorem foldl_digitsRevAux (fuel : Nat) : ∀ n a, n ≤ fuel →
    ((digitsRevAux fuel n).reverse).foldl (fun acc c => 10 * acc + digitVal c) a =
      a * 10 ^ (digitsRevAux fuel n).length + n := by
  induction fuel with
  | zero =>
    intro n a hn
    have : n = 0 := Nat.le_zero.mp hn
    subst this
    simp [digitsRevAux]
  | succ f ih =>
    intro n a hn
    by_cases h0 : n = 0
    · subst h0; simp [digitsRevAux]
    · have hdiv : n / 10 ≤ f := by
        have h1 : n / 10 < n := Nat.div_lt_self (Nat.pos_of_ne_zero h0) (by decide)
        omega
      simp only [digitsRevAux, if_neg h0, List.reverse_cons, List.foldl_append,
                 List.foldl_cons, List.foldl_nil, List.length_cons]
      rw [ih (n / 10) a hdiv]
      rw [digitVal_hexDigit _ (Nat.mod_lt _ (by decide))]
      rw [pow_succ]
      have := Nat.div_add_mod n 10
      ring_nf
      omega

theorem parse_u64_digits (c : Char) (rest : List Char)
    (hplus : ¬ c = '+') (hall : (c :: rest).all isDigitChar = true) :
    parse_u64 (String.mk (c :: rest)) =
      (if (c :: rest).foldl (fun a ch => 10 * a + digitVal ch) 0 <
          18446744073709551616
       then some ((c :: rest).foldl (fun a ch => 10 * a + digitVal ch) 0)
       else none) := by
  unfold parse_u64
  simp [hplus, hall]

theorem parse_natToDecimal (i : Nat) (h : i < 18446744073709551616) :
    parse_u64 (natToDecimal i) = some i := by
  by_cases h0 : i = 0
  · subst h0; decide
  · have hne : natToDecimal i = String.mk (digitsRev i).reverse := by
      simp [natToDecimal, h0]
    rw [hne]
    have hall : ((digitsRev i).reverse).all isDigitChar = true := by
      rw [List.all_reverse]; exact digitsRevAux_all i i
    have hfold : ((digitsRev i).reverse).foldl
        (fun acc c => 10 * acc + digitVal c) 0 = i := by
      have := foldl_digitsRevAux i i 0 (le_refl i)
      simpa using this
    cases hl : (digitsRev i).reverse with
    | nil =>
      exfalso
      have : digitsRev i = [] := by
        have := congrArg List.reverse hl
        simpa using this
      unfold digitsRev digitsRevAux at this
      cases hi : i with
      | zero => exact h0 hi
      | succ k => rw [hi] at this; simp [h0, hi ▸ h0] at this
    | cons c rest =>
      have hcd : isDigitChar c = true := by
        rw [hl] at hall
        simp [List.all_cons] at hall
        exact hall.1
      have hcplus : ¬ c = '+' := by
        intro hc
        rw [hc] at hcd
        exact absurd hcd (by decide)
      rw [parse_u64_digits c rest hcplus (hl ▸ hall)]
      rw [← hl, hfold, if_pos h]

theorem getFile_setFile_self (fs : Fs) (p : Path) (d : List Nat) :
    (fs.setFile p d).getFile p = some d := by
  simp [Fs.getFile, Fs.setFile, List.find?_cons_of_pos]

theorem getFile_setFile_ne (fs : Fs) (p q : Path) (d : List Nat)
    (h : ¬ q = p) : (fs.setFile p d).getFile q = fs.getFile q := by
  unfold Fs.getFile Fs.setFile
  simp only
  rw [List.find?_cons_of_neg _ (by simp only [decide_eq_true_eq]; exact fun hc => h hc.symm)]
  refine congrArg (Option.map Prod.snd) (find?_filter_frame _ _ _ ?_)
  intro e he
  simp only [decide_eq_true_eq] at he ⊢
  rw [he]
  exact h

theorem getFile_addDir (fs : Fs) (dir : Path) (p : Path) :
    (fs.addDir dir).getFile p = fs.getFile p := rfl

theorem dirEntries_addDir (fs : Fs) (dir d : Path) :
    (fs.addDir dir).dirEntries d = fs.dirEntries d := rfl

theorem filterMap_filter_frame {α β : Type} (l : List α) (q : α → Bool)
    (g : α → Option β) (h : ∀ e, q e = false → g e = none) :
    (l.filter q).filterMap g = l.filterMap g := by
  induction l with
  | nil => rfl
  | cons a rest ih =>
    cases hq : q a with
    | true => simp [List.filter_cons, hq, List.filterMap_cons, ih]
    | false => simp [List.filter_cons, hq, List.filterMap_cons, h a hq, ih]

theorem dirEntries_setFile_out (fs : Fs) (p : Path) (d : List Nat) (dir : Path)
    (h : isInDir dir p = false) :
    (fs.setFile p d).dirEntries dir = fs.dirEntries dir := by
  unfold Fs.dirEntries Fs.setFile
  simp only [List.filterMap_cons, h, if_neg, Bool.false_eq_true, if_false]
  refine filterMap_filter_frame _ _ _ ?_
  intro e he
  have he2 : e.fst = p := by
    have := of_decide_eq_false he
    simpa using this
  simp [he2, h]

theorem isInDir_append (d : Path) (n : String) : isInDir d (d ++ [n]) = true := by
  simp [isInDir]

theorem eq_append_of_isInDir {d p : Path} (h : isInDir d p = true) :
    ∃ n, p = d ++ [n] ∧ p.getLast? = some n := by
  unfold isInDir at h
  simp only [Bool.and_eq_true, decide_eq_true_eq] at h
  rcases h with ⟨hdrop, hne⟩
  refine ⟨p.getLast hne, ?_, List.getLast?_eq_getLast p hne⟩
  conv_lhs => rw [← List.dropLast_append_getLast hne]
  rw [hdrop]

theorem getFile_of_dirEntries_aux (l : List (Path × List Nat)) (d : Path)
    (n : String) (b : List Nat)
    (hmem : (n, b) ∈ l.filterMap (fun e =>
      if isInDir d e.fst then (e.fst.getLast?).map (fun m => (m, e.snd)) else none))
    (huniq : ((l.filterMap (fun e =>
      if isInDir d e.fst then (e.fst.getLast?).map (fun m => (m, e.snd)) else none)).map
        Prod.fst).Nodup) :
    Option.map Prod.snd (l.find? (fun e => e.fst = d ++ [n])) = some b := by
  induction l with
  | nil => simp at hmem
  | cons a rest ih =>
    cases hin : isInDir d a.fst with
    | false =>
      rw [List.filterMap_cons, hin] at hmem huniq
      have hne : ¬ (a.fst = d ++ [n]) := by
        intro hc
        rw [hc, isInDir_append] at hin
        exact absurd hin (by simp)
      rw [List.find?_cons_of_neg _ (by simpa using hne)]
      exact ih hmem huniq
    | true =>
      obtain ⟨m, hpm, hlast⟩ := eq_append_of_isInDir hin
      have hfa : (fun (e : Path × List Nat) =>
          if isInDir d e.fst then (e.fst.getLast?).map (fun m2 => (m2, e.snd))
          else none) a = some (m, a.snd) := by
        simp only [hin, if_pos, hlast]
        rfl
      rw [@List.filterMap_cons_some _ _ (fun (e : Path × List Nat) =>
        if isInDir d e.fst then (e.fst.getLast?).map (fun m2 => (m2, e.snd))
        else none) a rest (m, a.snd) hfa] at hmem huniq
      rcases List.mem_cons.mp hmem with heq | hmem2
      · have hnm : m = n := (congrArg Prod.fst heq).symm
        have hb : a.snd = b := (congrArg Prod.snd heq).symm
        rw [List.find?_cons_of_pos _ (by simp [hpm, hnm])]
        simp [hb]
      · rw [List.map_cons, List.nodup_cons] at huniq
        have hn_mem : n ∈ (List.filterMap (fun (e : Path × List Nat) =>
            if isInDir d e.fst then (e.fst.getLast?).map (fun m2 => (m2, e.snd))
            else none) rest).map Prod.fst :=
          List.mem_map_of_mem Prod.fst hmem2
        have hmn : ¬ (m = n) := by
          intro hc
          apply huniq.1
          rw [hc]
          exact hn_mem
        have hne : ¬ (a.fst = d ++ [n]) := by
          rw [hpm]
          intro hc
          exact hmn (by simpa using hc)
        rw [List.find?_cons_of_neg _ (by simpa using hne)]
        exact ih hmem2 huniq.2

theorem getFile_of_dirEntries (fs : Fs) (d : Path) (n : String) (b : List Nat)
    (hmem : (n, b) ∈ fs.dirEntries d)
    (huniq : ((fs.dirEntries d).map Prod.fst).Nodup) :
    fs.getFile (d ++ [n]) = some b :=
  getFile_of_dirEntries_aux fs.files d n b hmem huniq

theorem mapM_eq_some_map {α β : Type} (l : List α) (g : α → Option β)
    (f : α → β) (h : ∀ x ∈ l, g x = some (f x)) :
    l.mapM g = some (l.map f) := by
  induction l with
  | nil => rfl
  | cons a rest ih =>
    rw [List.mapM_cons, h a (List.mem_cons_self a rest),
        ih (fun x hx => h x (List.mem_cons_of_mem a hx))]
    rfl

theorem mapM_eq_none {α β : Type} (l : List α) (g : α → Option β)
    (x : α) (hx : x ∈ l) (hg : g x = none) : l.mapM g = none := by
  induction l with
  | nil => simp at hx
  | cons a rest ih =>
    rw [List.mapM_cons]
    rcases List.mem_cons.mp hx with rfl | hx2
    · rw [hg]; rfl
    · cases hga : g a
      · rfl
      · rw [ih hx2]; rfl

theorem chunkPath_ne_packagePath (t : Transfer) (i : Nat) :
    ¬ (t.chunkPath i = t.packagePath) := by
  intro h
  have := congrArg List.length h
  simp [Transfer.chunkPath, Transfer.packagePath, Transfer.chunkDir] at this

theorem packagePath_not_in_chunkDir (t : Transfer) :
    isInDir t.chunkDir t.packagePath = false := by
  cases hb : isInDir t.chunkDir t.packagePath
  · rfl
  · exfalso
    obtain ⟨n, hpn, _⟩ := eq_append_of_isInDir hb
    have := congrArg List.length hpn
    simp [Transfer.packagePath, Transfer.chunkDir] at this

theorem copyChunks_spec (t : Transfer) (l : List (Nat × List Nat)) :
    ∀ (fs : Fs) (acc : List Nat),
    (∀ ib ∈ l, fs.getFile (t.chunkPath ib.fst) = some ib.snd) →
    fs.getFile t.packagePath = some acc →
    (t.copyChunks (l.map Prod.fst) fs).map (fun fs2 => fs2.getFile t.packagePath) =
      some (some (acc ++ (l.map Prod.snd).flatten)) := by
  induction l with
  | nil =>
    intro fs acc hchunks hpkg
    simp [Transfer.copyChunks, hpkg]
  | cons ib rest ih =>
    intro fs acc hchunks hpkg
    simp only [List.map_cons]
    unfold Transfer.copyChunks
    rw [hchunks ib (List.mem_cons_self ib rest), hpkg]
    have hrest : ∀ jb ∈ rest,
        (fs.setFile t.packagePath (acc ++ ib.snd)).getFile (t.chunkPath jb.fst) =
          some jb.snd := by
      intro jb hjb
      rw [getFile_setFile_ne _ _ _ _ (chunkPath_ne_packagePath t jb.fst)]
      exact hchunks jb (List.mem_cons_of_mem ib hjb)
    have hpkg2 := getFile_setFile_self fs t.packagePath (acc ++ ib.snd)
    have := ih (fs.setFile t.packagePath (acc ++ ib.snd)) (acc ++ ib.snd)
      hrest hpkg2
    rw [this]
    simp [List.flatten_cons, List.append_assoc]

theorem sortNat_eq_of_perm_sorted (l l2 : List Nat) (hp : l.Perm l2)
    (hs : l2.Sorted (· < ·)) : sortNat l = l2 := by
  refine @List.eq_of_perm_of_sorted Nat (· ≤ ·) _ _ _ ?_ ?_ ?_
  · exact (List.perm_insertionSort (· ≤ ·) l).trans hp
  · exact List.sorted_insertionSort (· ≤ ·) l
  · exact hs.imp le_of_lt

theorem dirEntries_assembleFs (t : Transfer) (fs : Fs) :
    (t.assembleFs fs).dirEntries t.chunkDir = fs.dirEntries t.chunkDir := by
  unfold Transfer.assembleFs
  rw [dirEntries_addDir,
      dirEntries_setFile_out _ _ _ _ (packagePath_not_in_chunkDir t),
      dirEntries_addDir]

/-- Claim C2: when the chunk directory holds exactly the files named
by the decimals of strictly increasing u64 indices with contents
b1..bk, assembly writes the package file whose contents are the
concatenation of b1..bk in ascending index order; and any file name
in the chunk directory that does not parse as a u64 makes assembly
fail. -/
theorem claim_C2_assembly_is_sorted_concatenation :
    (∀ (t : Transfer) (fs : Fs) (idxBytes : List (Nat × List Nat)),
      (idxBytes.map Prod.fst).Sorted (· < ·) →
      (∀ i ∈ idxBytes.map Prod.fst, i < 18446744073709551616) →
      (fs.dirEntries t.chunkDir).Perm
        (idxBytes.map (fun e => (natToDecimal e.fst, e.snd))) →
      (t.assemble_chunks fs).map (fun fs2 => fs2.getFile t.packagePath) =
        some (some ((idxBytes.map Prod.snd).flatten)))
    ∧ (∀ (t : Transfer) (fs : Fs) (n : String) (b : List Nat),
        (n, b) ∈ fs.dirEntries t.chunkDir → parse_u64 n = none →
        t.assemble_chunks fs = none) := by
  constructor
  · intro t fs idxBytes hsorted hrange hperm
    unfold Transfer.assemble_chunks
    rw [dirEntries_assembleFs]
    have hps : ∀ e ∈ fs.dirEntries t.chunkDir,
        parse_u64 e.fst = some ((parse_u64 e.fst).getD 0) := by
      intro e he
      have he2 := hperm.subset he
      obtain ⟨ib, hib, hibe⟩ := List.mem_map.mp he2
      have hr : ib.fst < 18446744073709551616 :=
        hrange ib.fst (List.mem_map_of_mem Prod.fst hib)
      have : parse_u64 e.fst = some ib.fst := by
        rw [← hibe]
        exact parse_natToDecimal ib.fst hr
      rw [this]
      rfl
    rw [mapM_eq_some_map _ _ _ hps]
    have hcanon_map :
        (idxBytes.map (fun e => (natToDecimal e.fst, e.snd))).map
          (fun e => (parse_u64 e.fst).getD 0) = idxBytes.map Prod.fst := by
      rw [List.map_map]
      apply List.map_congr_left
      intro ib hib
      have hr : ib.fst < 18446744073709551616 :=
        hrange ib.fst (List.mem_map_of_mem Prod.fst hib)
      simp [Function.comp, parse_natToDecimal ib.fst hr]
    have hsort : sortNat ((fs.dirEntries t.chunkDir).map
        (fun e => (parse_u64 e.fst).getD 0)) = idxBytes.map Prod.fst := by
      apply sortNat_eq_of_perm_sorted
      · rw [← hcanon_map]
        exact hperm.map _
      · exact hsorted
    have hfstnodup : (idxBytes.map Prod.fst).Nodup := hsorted.imp ne_of_lt
    have hnodup_names : ((fs.dirEntries t.chunkDir).map Prod.fst).Nodup := by
      rw [(hperm.map Prod.fst).nodup_iff]
      rw [List.map_map]
      rw [show (idxBytes.map
          (Prod.fst ∘ fun e => (natToDecimal e.fst, e.snd))) =
          (idxBytes.map Prod.fst).map natToDecimal by rw [List.map_map]; rfl]
      apply List.Nodup.map_on ?_ hfstnodup
      intro x hx y hy hxy
      have h1 := parse_natToDecimal x (hrange x hx)
      have h2 := parse_natToDecimal y (hrange y hy)
      rw [hxy, h2] at h1
      exact (Option.some.injEq _ _).mp h1.symm
    have hchunks : ∀ ib ∈ idxBytes,
        (t.assembleFs fs).getFile (t.chunkPath ib.fst) = some ib.snd := by
      intro ib hib
      unfold Transfer.assembleFs
      rw [getFile_addDir,
          getFile_setFile_ne _ _ _ _ (chunkPath_ne_packagePath t ib.fst)]
      show (fs.addDir [t.root_dir, "packages"]).getFile
        (t.chunkDir ++ [natToDecimal ib.fst]) = some ib.snd
      rw [getFile_addDir]
      apply getFile_of_dirEntries
      · exact hperm.mem_iff.mpr
          (List.mem_map_of_mem (fun e => (natToDecimal e.fst, e.snd)) hib)
      · exact hnodup_names
    have hpkg0 : (t.assembleFs fs).getFile t.packagePath = some [] := by
      unfold Transfer.assembleFs
      rw [getFile_addDir]
      exact getFile_setFile_self _ _ _
    have hresult := copyChunks_spec t idxBytes (t.assembleFs fs) [] hchunks hpkg0
    have hfinal : Option.map (fun fs2 => fs2.getFile t.packagePath)
        (t.copyChunks (sortNat ((fs.dirEntries t.chunkDir).map
          (fun e => (parse_u64 e.fst).getD 0))) (t.assembleFs fs)) =
        some (some ((idxBytes.map Prod.snd).flatten)) := by
      rw [hsort]
      simpa using hresult
    exact hfinal
  · intro t fs n b hmem hparse
    unfold Transfer.assemble_chunks
    rw [dirEntries_assembleFs]
    rw [mapM_eq_none _ _ (n, b) hmem hparse]

set_option maxRecDepth 100000 in
/-- Witness for claim C2: assembling the single-chunk fixture yields
the chunk bytes as the package contents, and a chunk directory entry
named `junk` makes assembly fail. -/
theorem claim_C2_witness :
    ((testTransfer "x").assemble_chunks testFs).map
        (fun fs2 => fs2.getFile (testTransfer "x").packagePath) =
      some (some [116, 101, 115, 116, 10])
    ∧ (testTransfer "x").assemble_chunks badNameFs = none :=
  ⟨claim_C2_assembly_is_sorted_concatenation.1 (testTransfer "x") testFs
     [(0, [116, 101, 115, 116, 10])] (by decide) (by decide) (by decide),
   claim_C2_assembly_is_sorted_concatenation.2 (testTransfer "x") badNameFs
     "junk" [1] (by decide) (by decide)⟩

set_option maxRecDepth 100000 in
/-- Claim C1: whenever the assembled package file holds bytes `data`,
`assemble_package` returns true exactly when the configured checksum
equals the lower-case hex SHA-1 of `data`; in particular, for the
five bytes of `test` plus newline it accepts checksum
4e1243bd22c66e76c2ba9eddc1f91394e57f9f83 and rejects
fa7c4d75bae3a641d1f9ab5df028175bfb8a69ca and `invalid`. -/
theorem claim_C1_checksum_honesty :
    (∀ (t : Transfer) (fs : Fs) (data : List Nat),
      (t.assemble_chunks fs).map (fun fs2 => fs2.getFile t.packagePath) =
        some (some data) →
      (t.assemble_package fs = true ↔ t.checksum = sha1Hex data))
    ∧ (testTransfer
        "4e1243bd22c66e76c2ba9eddc1f91394e57f9f83").assemble_package testFs =
        true
    ∧ (testTransfer
        "fa7c4d75bae3a641d1f9ab5df028175bfb8a69ca").assemble_package testFs =
        false
    ∧ (testTransfer "invalid").assemble_package testFs = false := by
  refine ⟨?_, by decide, by decide, by decide⟩
  intro t fs data h
  cases ha : t.assemble_chunks fs with
  | none => rw [ha] at h; simp at h
  | some fs1 =>
    rw [ha] at h
    simp at h
    unfold Transfer.assemble_package
    rw [ha]
    show (match fs1.getFile t.packagePath with
      | none => false
      | some d => decide (sha1Hex d = t.checksum)) = true ↔
        t.checksum = sha1Hex data
    rw [h]
    simp [eq_comm]

set_option maxRecDepth 100000 in
/-- Witness for claim C1: at the single-chunk fixture, the honesty
equivalence instantiates to the concrete `test` vector. -/
theorem claim_C1_witness :
    (testTransfer
        "4e1243bd22c66e76c2ba9eddc1f91394e57f9f83").assemble_package testFs =
        true ↔
      (testTransfer "4e1243bd22c66e76c2ba9eddc1f91394e57f9f83").checksum =
        sha1Hex [116, 101, 115, 116, 10] :=
  claim_C1_checksum_honesty.1
    (testTransfer "4e1243bd22c66e76c2ba9eddc1f91394e57f9f83") testFs
    [116, 101, 115, 116, 10] (by decide)

end Sota
